import Mathlib

/-!
Verification of the ferrum in-memory relational storage engine.

This file is a shallow embedding of the storage/query core of the ferrum
repository (`src/persistence/{row,schema,index,table,database}.rs` and
`src/functions/{aggregators,scalars}`), together with theorems settling the
frozen claims about it.

Modelling conventions:
* Rust `Vec<T>` becomes `List T`; `HashMap<K,V>` becomes the extensional map
  `K → Option V` (the code never observes iteration order of the primary-key
  index: `shift_index_back` rewrites every value uniformly).  The one
  `HashMap` iterated with observable effect, the `updates` argument of
  `Table::update`, is modelled as an association list iterated in list
  order, a fixed determinization of the unspecified `HashMap` order.
* Fallible Rust code returns `Except Failure α`; an explicit `Err(msg)`
  becomes `Failure.err msg` and a Rust panic (`unwrap`, `expect`, slice
  indexing out of bounds) becomes `Failure.fatal msg`.
* Mutating methods (`&mut self`) become functions `Table → args → Table × _`
  so that partial mutation performed before a returned error is kept, as it
  is behind a `&mut` borrow in Rust.
* `Arc<RwLock<_>>` handles shared between a `Table` and its `TableReader`s
  are modelled by `Handle`: a reader's component is either `.shared`
  (aliasing the parent table's field, as produced by `Arc::clone` in
  `Table::reader`) or `.owned v` (a freshly allocated `Arc::new(RwLock::new v)`).
  Reads and writes through a handle are performed against the parent table
  exactly when the handle is `.shared`.
* Machine integers (`u64`, `usize`) are `Nat` with the `2^64` bound enforced
  where the code parses them.
-/

namespace Ferrum

/-- Outcome of a fallible Rust computation: `err` is an explicit `Err(msg)`
return value, `fatal` is a Rust panic (`unwrap`/`expect`/out-of-bounds). -/
inductive Failure
  | err (msg : String)
  | fatal (msg : String)
  deriving DecidableEq, Repr

/-- Message used for `Option::unwrap` on a `None` value. -/
def unwrapNone : Failure := Failure.fatal "unwrap on None"

/-- Datatypes of `schema.rs`. -/
inductive DataType
  | Number
  | Text
  deriving DecidableEq, Repr

/-- `Display for DataType` in `schema.rs`. -/
def DataType.display : DataType → String
  | .Number => "NUM"
  | .Text => "TXT"

/-- `ForeignKeyConstraint` of `index.rs`. -/
structure ForeignKeyConstraint where
  table_name : String
  column_name : String
  column_index : Option Nat
  deriving DecidableEq, Repr

/-- `ForeignKeyConstraint::new`. -/
def ForeignKeyConstraint.new (table_name column_name : String) : ForeignKeyConstraint :=
  { table_name := table_name, column_name := column_name, column_index := none }

/-- `ForeignKeyConstraint::update_index`. -/
def ForeignKeyConstraint.update_index (fk : ForeignKeyConstraint) (index : Nat) :
    ForeignKeyConstraint :=
  { fk with column_index := some index }

/-- `ColumnInformation` of `schema.rs`. -/
structure ColumnInformation where
  datatype : DataType
  max_limit : Option Nat
  nullable : Bool
  foreign_key_constraint : Option ForeignKeyConstraint
  deriving DecidableEq, Repr

/-- `ColumnInformation::from` of `schema.rs`. -/
def ColumnInformation.from' (datatype : DataType) (max_limit : Option Nat) (nullable : Bool) :
    ColumnInformation :=
  { datatype := datatype, max_limit := max_limit, nullable := nullable,
    foreign_key_constraint := none }

/-- Modelled from the spec: the `Default` implementation for
`ColumnInformation` (used by `TableReader::add_column*` in `table.rs`) is not
among the provided sources.  The spec's data model says text columns default
to maximum length 50 and columns are non-nullable by default, so the default
column information is a plain text column with those defaults. -/
def ColumnInformation.default : ColumnInformation :=
  { datatype := .Text, max_limit := some 50, nullable := false,
    foreign_key_constraint := none }

/-- `Row` of `row.rs`: an ordered sequence of nullable text cells. -/
structure Row where
  cells : List (Option String)
  deriving DecidableEq, Repr

/-- `Key` of `index.rs`. -/
inductive Key
  | PrimaryKey
  | ForeignKey (table_name column_name : String)
  deriving DecidableEq, Repr

/-- `Schema` of `schema.rs`: a vector of (column name, column info) pairs. -/
structure Schema where
  cols : List (String × ColumnInformation)
  deriving DecidableEq, Repr

/-- `Schema::new`. -/
def Schema.new (schema : List (String × ColumnInformation)) : Schema :=
  { cols := schema }

/-- `Schema::get`. -/
def Schema.get (s : Schema) (index : Nat) : Option (String × ColumnInformation) :=
  s.cols[index]?

/-- `Schema::get_vec`. -/
def Schema.get_vec (s : Schema) : List (String × ColumnInformation) :=
  s.cols

/-- `Schema::len`. -/
def Schema.len (s : Schema) : Nat :=
  s.cols.length

/-- `Schema::get_foreign_key_constraints`: the (column index, constraint)
pairs of the columns carrying a constraint, in order. -/
def Schema.get_foreign_key_constraints (s : Schema) : List (Nat × ForeignKeyConstraint) :=
  s.cols.enum.filterMap fun p => p.2.2.foreign_key_constraint.map fun fk => (p.1, fk)

/-- `Schema::update_foreign_key_index`: sets the resolved referent column
index on the constraint of the column at `schema_index`.  The source calls
`as_mut().unwrap()` on the constraint, a panic when that column has no
constraint. -/
def Schema.update_foreign_key_index (s : Schema) (schema_index key_index : Nat) :
    Except Failure Schema :=
  match s.cols[schema_index]? with
  | none => Except.ok s
  | some (name, col_info) =>
    match col_info.foreign_key_constraint with
    | none => Except.error unwrapNone
    | some fk =>
      Except.ok (Schema.new (s.cols.set schema_index
        (name, { col_info with foreign_key_constraint := some (fk.update_index key_index) })))

/-- `Index` of `index.rs`: `HashMap<String, usize>` as an extensional map. -/
structure Index where
  key_index_map : String → Option Nat

/-- `Index::new`. -/
def Index.new : Index :=
  { key_index_map := fun _ => none }

/-- `Index::insert`: `HashMap::insert` overwrites an existing entry. -/
def Index.insert (m : Index) (key : String) (index : Nat) : Index :=
  { key_index_map := fun k => if k = key then some index else m.key_index_map k }

/-- `Index::get`. -/
def Index.get (m : Index) (key : String) : Option Nat :=
  m.key_index_map key

/-- `Index::remove` (the removed value, returned by the source, is unused by
all callers and dropped here). -/
def Index.remove (m : Index) (key : String) : Index :=
  { key_index_map := fun k => if k = key then none else m.key_index_map k }

/-- `Index::shift_index_back`: every stored position strictly greater than
`start_index` is decremented by one. -/
def Index.shift_index_back (m : Index) (start_index : Nat) : Index :=
  { key_index_map := fun k =>
      (m.key_index_map k).map fun i => if start_index < i then i - 1 else i }

/-- Rust `str::parse::<u64>` (and `usize` on a 64-bit target): an optional
leading `+`, then one or more ASCII digits, value below `2^64`. -/
def parseU64 (s : String) : Option Nat :=
  let ds : List Char :=
    match s.data with
    | '+' :: rest => rest
    | l => l
  if ds ≠ [] ∧ ds.all Char.isDigit then
    let v := ds.foldl (fun acc c => acc * 10 + (c.toNat - 48)) 0
    if v < 2 ^ 64 then some v else none
  else none

/-- Helper of `rustSplit`: splits a character list at every occurrence of
the separator, keeping empty segments, as Rust `str::split` does. -/
def rustSplitAux (sep : Char) : List Char → List Char → List (List Char)
  | [], acc => [acc.reverse]
  | c :: rest, acc =>
    if c = sep then acc.reverse :: rustSplitAux sep rest []
    else rustSplitAux sep rest (c :: acc)

/-- Rust `str::split` with a one-character separator (the source only splits
on `" "` and `"."`). -/
def rustSplit (s : String) (sep : Char) : List String :=
  (rustSplitAux sep s.data []).map String.mk

/-- Lexicographic strict order on character lists by code point; on UTF-8
text this coincides with Rust's byte-wise `str` ordering, since UTF-8
preserves code-point order. -/
def charListLt : List Char → List Char → Bool
  | [], [] => false
  | [], _ :: _ => true
  | _ :: _, [] => false
  | a :: as, b :: bs =>
    if a.toNat < b.toNat then true
    else if b.toNat < a.toNat then false
    else charListLt as bs

/-- Rust `String::lt`: lexicographic comparison of the text forms. -/
def rustStrLt (a b : String) : Bool :=
  charListLt a.data b.data

/-- `Table` of `table.rs`. -/
structure Table where
  name : String
  schema : Schema
  rows : List Row
  primary_key_columns : List Nat
  is_indexed : Bool
  index : Index

/-- `Table::_rows`. -/
def Table._rows (t : Table) : Nat :=
  t.rows.length

/-- `Table::_validate_field`: validates one field against its column,
returning the cell to store (`none` is a null cell). -/
def Table._validate_field (_t : Table) (item : String) (col_name : String)
    (col_info : ColumnInformation) : Except Failure (Option String) :=
  if item = "" ∧ col_info.nullable then
    Except.ok none
  else if item = "" ∧ ¬col_info.nullable then
    Except.error (Failure.err
      ("invalid NULL: empty strings not allowed on columm '" ++ col_name ++ "'"))
  else
    match col_info.datatype with
    | .Number =>
      if (parseU64 item).isNone then
        Except.error (Failure.err ("invalid " ++ item ++ ": value not allowed on column '"
          ++ col_name ++ "' (" ++ col_info.datatype.display ++ ")"))
      else Except.ok (some item)
    | .Text =>
      match col_info.max_limit with
      | some max_limit =>
        if max_limit < item.utf8ByteSize then
          Except.error (Failure.err ("invalid " ++ item ++ ": value not allowed on column '"
            ++ col_name ++ "' (" ++ col_info.datatype.display ++ ")"))
        else Except.ok (some item)
      | none => Except.ok (some item)

/-- `Table::_validate_data`: validates a whole candidate row against the
schema (cell count, then each field in order, stopping at the first error). -/
def Table._validate_data (t : Table) (data : List String) : Except Failure Row :=
  if data.length ≠ t.schema.len then
    Except.error (Failure.err ("invalid data: schema has " ++ toString t.schema.len
      ++ " column(s), but " ++ toString data.length ++ " were provided"))
  else
    Row.mk <$> (data.zip t.schema.get_vec).mapM fun p =>
      t._validate_field p.1 p.2.1 p.2.2

/-- `Table::_parse_column`: parses one `name type [key] [ref]` column
definition token string. -/
def Table._parse_column (col_def : String) :
    Except Failure (Option String × Option DataType × Option Key) :=
  match rustSplit col_def ' ' with
  | [] => Except.ok (none, none, none)
  | col_name :: rest =>
    if col_name ∈ ["pk", "fk", "num", "txt"] then
      Except.error (Failure.err
        ("invalid input " ++ col_name ++ ": keywords not allowed as column names"))
    else
      match rest with
      | [] => Except.ok (some col_name, none, none)
      | col_type :: rest2 =>
        match (match col_type with
               | "num" => Except.ok DataType.Number
               | "txt" => Except.ok DataType.Text
               | _ => Except.error (Failure.err ("invalid datatype " ++ col_type
                   ++ ": not supported, on column " ++ col_name))) with
        | Except.error e => Except.error e
        | Except.ok datatype =>
          match rest2 with
          | [] => Except.ok (some col_name, some datatype, none)
          | col_key :: rest3 =>
            match col_key with
            | "pk" => Except.ok (some col_name, some datatype, some Key.PrimaryKey)
            | "fk" =>
              match rest3 with
              | [] => Except.error (Failure.err "invalid reference table: format <table.col>")
              | fk_ref :: _ =>
                match rustSplit fk_ref '.' with
                | [a, b] => Except.ok (some col_name, some datatype, some (Key.ForeignKey a b))
                | _ => Except.error (Failure.err "invalid reference: check your fk argument again")
            | _ => Except.error (Failure.err
                ("invalid key type " ++ col_key ++ ": expected pk or fk"))

/-- `Table::_create_index_key_from_row`: the `|`-joined primary-key string of
a row.  The source `unwrap`s both the positional lookup and the cell, so an
out-of-range primary-key column or a null key cell panics. -/
def Table._create_index_key_from_row (t : Table) (row : Row) : Except Failure String :=
  match t.primary_key_columns.mapM (fun index =>
      match row.cells[index]? with
      | none => Except.error unwrapNone
      | some none => Except.error unwrapNone
      | some (some v) => Except.ok v) with
  | Except.error e => Except.error e
  | Except.ok values =>
    if values.length = 0 ∧ t.primary_key_columns.length ≠ 0 then
      Except.error (Failure.err "err: failed to index: unable to read columns")
    else Except.ok (String.intercalate "|" values)

/-- `Table::_extract_pk_values`: the key cells of a row that exist and are
non-null, in primary-key-column order. -/
def Table._extract_pk_values (t : Table) (row : Row) : List String :=
  t.primary_key_columns.filterMap fun idx => (row.cells[idx]?).bind id

/-- `Table::_find_row_unindexed`: scan-equality search on the projected key. -/
def Table._find_row_unindexed (t : Table) (keys : List String) : Option Nat :=
  let key := String.intercalate "|" keys
  t.rows.findIdx? fun row => String.intercalate "|" (t._extract_pk_values row) = key

/-- `Table::_find_row`. -/
def Table._find_row (t : Table) (pk : List String) : Option Nat :=
  if t.is_indexed then t.index.get (String.intercalate "|" pk)
  else t._find_row_unindexed pk

/-- `Table::_validate_pk`: arity check on the supplied key tuple. -/
def Table._validate_pk (t : Table) (pk : List String) : Except Failure Unit :=
  let key_components := t.primary_key_columns.length
  if t.is_indexed ∧ pk.length ≠ key_components then
    Except.error (Failure.err ("err: invalid key arguments: " ++ toString key_components
      ++ " expected, " ++ toString pk.length ++ " provided"))
  else if pk.length = 0 then
    Except.error (Failure.err "err: need a key for non-indexed search")
  else Except.ok ()

/-- `Table::pk_exists`. -/
def Table.pk_exists (t : Table) (pk : String) : Bool :=
  (t.index.get pk).isSome

/-- `Table::new`: parses the column definitions, builds the schema, collects
primary-key column indices; with no `pk` column the table is unindexed and
column 0 is the fallback identity. -/
def Table.new (name : String) (columns : List String) : Except Failure Table :=
  if columns.length = 0 then
    Except.error (Failure.err "invalid arguments: 0 arguments does not make a schema")
  else
    match columns.enum.foldlM
        (fun (acc : List (String × ColumnInformation) × List Nat) p => do
          let (index, col_def) := p
          let (column, datatype, key) ← Table._parse_column col_def
          let dt ← match datatype with
            | some dt => Except.ok dt
            | none => Except.error unwrapNone
          let max_limit : Option Nat := match dt with
            | .Number => none
            | .Text => some 50
          let col_info := ColumnInformation.from' dt max_limit false
          let (col_info, pks) : ColumnInformation × List Nat := match key with
            | some Key.PrimaryKey => (col_info, acc.2 ++ [index])
            | some (Key.ForeignKey table_name column_name) =>
              ({ col_info with
                 foreign_key_constraint := some (ForeignKeyConstraint.new table_name column_name) },
               acc.2)
            | none => (col_info, acc.2)
          let col ← match column with
            | some c => Except.ok c
            | none => Except.error unwrapNone
          Except.ok (acc.1 ++ [(col, col_info)], pks))
        ([], []) with
    | Except.error e => Except.error e
    | Except.ok (schema, primary_key_columns) =>
      let (primary_key_columns, is_indexed) :=
        if primary_key_columns.length = 0 then ([0], false) else (primary_key_columns, true)
      Except.ok { name := name, schema := Schema.new schema, rows := [],
                  primary_key_columns := primary_key_columns, is_indexed := is_indexed,
                  index := Index.new }

/-- `Table::insert`: validates the row, records `key ↦ position` in the index
when the table is indexed (`Index::insert` overwrites an existing entry, and
the source performs no duplicate check), then appends the row. -/
def Table.insert (t : Table) (data : List String) : Table × Except Failure Row :=
  match t._validate_data data with
  | Except.error e => (t, Except.error e)
  | Except.ok row =>
    let row_index := t.rows.length
    if t.is_indexed then
      match t._create_index_key_from_row row with
      | Except.error e => (t, Except.error e)
      | Except.ok key =>
        ({ t with index := t.index.insert key row_index, rows := t.rows ++ [row] },
         Except.ok row)
    else
      ({ t with rows := t.rows ++ [row] }, Except.ok row)

/-- Loop of `Table::insert_many`, threading the per-row count. -/
def Table.insert_many_loop (t : Table) (values : List (List String)) (n : Nat) :
    Table × Except Failure Nat :=
  match values with
  | [] => (t, Except.ok n)
  | value :: rest =>
    match t.insert value with
    | (t', Except.ok _) => Table.insert_many_loop t' rest (n + 1)
    | (t', Except.error e) => (t', Except.error e)

/-- `Table::insert_many`: non-transactional bulk insert; an error stops the
loop and is propagated, prior insertions are kept. -/
def Table.insert_many (t : Table) (values : List (List String)) : Table × Except Failure Nat :=
  Table.insert_many_loop t values 0

/-- Loop of `Table::update`: rewrites the row's cells one update at a time,
keeping cells already written when a later update fails. -/
def Table.update_row_loop (t : Table) (updates : List (String × String))
    (row : List (Option String)) (col_updated : Nat) :
    List (Option String) × Nat × Option Failure :=
  match updates with
  | [] => (row, col_updated, none)
  | (col_name, col_data) :: rest =>
    match t.schema.get_vec.findIdx? (fun p => p.1 = col_name) with
    | none => (row, col_updated,
        some (Failure.err ("unexpected " ++ col_name ++ ": no such column exists")))
    | some index =>
      match t.schema.get index with
      | none => (row, col_updated, some (Failure.fatal "err: invalid index"))
      | some (_, col_info) =>
        match t._validate_field col_data col_name col_info with
        | Except.error e => (row, col_updated, some e)
        | Except.ok validated_value =>
          Table.update_row_loop t rest (row.set index validated_value) (col_updated + 1)

/-- `Table::update`: locates the row by primary key (the source `unwrap`s the
lookup, a panic when no row matches) and rewrites the named cells. -/
def Table.update (t : Table) (pk : List String) (updates : List (String × String)) :
    Table × Except Failure Nat :=
  match t._validate_pk pk with
  | Except.error e => (t, Except.error e)
  | Except.ok _ =>
    match t._find_row pk with
    | none => (t, Except.error unwrapNone)
    | some row_index =>
      match t.rows[row_index]? with
      | none => (t, Except.error unwrapNone)
      | some row =>
        let (row', col_updated, failed) := t.update_row_loop updates row.cells 0
        let t' := { t with rows := t.rows.set row_index (Row.mk row') }
        match failed with
        | some e => (t', Except.error e)
        | none => (t', Except.ok col_updated)

/-- `Table::delete`: removes the row found for the key from the rows vector;
in an indexed table also removes the key from the index and shifts positions
above the removed one down by one. -/
def Table.delete (t : Table) (pk : List String) : Table × Except Failure Row :=
  match t._validate_pk pk with
  | Except.error e => (t, Except.error e)
  | Except.ok _ =>
    let key := String.intercalate "|" pk
    match t._find_row pk with
    | some index =>
      match t.rows[index]? with
      | none => (t, Except.error (Failure.fatal "index out of bounds"))
      | some deleted_row =>
        let rows' := t.rows.eraseIdx index
        if t.is_indexed then
          ({ t with rows := rows', index := (t.index.remove key).shift_index_back index },
           Except.ok deleted_row)
        else
          ({ t with rows := rows' }, Except.ok deleted_row)
    | none => (t, Except.error (Failure.err "err: invalid key; no match for this index"))

/-- `Table::delete_all`: clears the rows vector, returning the prior row
count; the index is not touched. -/
def Table.delete_all (t : Table) : Table × Nat :=
  ({ t with rows := [] }, t.rows.length)

/-- `Table::update_foreign_key_index`. -/
def Table.update_foreign_key_index (t : Table) (schema_index key_index : Nat) :
    Except Failure Table :=
  match t.schema.update_foreign_key_index schema_index key_index with
  | Except.error e => Except.error e
  | Except.ok schema => Except.ok { t with schema := schema }

/-- An `Arc<RwLock<α>>` component of a `TableReader`: `.shared` aliases the
parent table's field (an `Arc::clone` of it), `.owned v` is a freshly
allocated cell holding `v`. -/
inductive Handle (α : Type)
  | shared
  | owned (value : α)
  deriving DecidableEq, Repr

/-- `TableReader` of `table.rs`: handles onto a schema and a rows vector. -/
structure TableReader where
  schema : Handle Schema
  rows : Handle (List Row)
  deriving DecidableEq, Repr

/-- `Table::reader`: the reader holds `Arc::clone`s of the table's schema and
rows, so both handles alias the parent. -/
def Table.reader (_t : Table) : TableReader :=
  { schema := Handle.shared, rows := Handle.shared }

/-- Read a reader's schema (through the parent when shared). -/
def TableReader.readSchema (t : Table) (r : TableReader) : Schema :=
  match r.schema with
  | Handle.shared => t.schema
  | Handle.owned s => s

/-- Read a reader's rows (through the parent when shared). -/
def TableReader.readRows (t : Table) (r : TableReader) : List Row :=
  match r.rows with
  | Handle.shared => t.rows
  | Handle.owned rs => rs

/-- Write a schema through a handle: a shared handle writes the parent table,
an owned handle replaces the owned value. -/
def Handle.writeSchema (t : Table) (h : Handle Schema) (s : Schema) : Table × Handle Schema :=
  match h with
  | Handle.shared => ({ t with schema := s }, Handle.shared)
  | Handle.owned _ => (t, Handle.owned s)

/-- Write a rows vector through a handle: a shared handle writes the parent
table, an owned handle replaces the owned value. -/
def Handle.writeRows (t : Table) (h : Handle (List Row)) (rs : List Row) :
    Table × Handle (List Row) :=
  match h with
  | Handle.shared => ({ t with rows := rs }, Handle.shared)
  | Handle.owned _ => (t, Handle.owned rs)

/-- `FunctionArg` of `cli/commands.rs`. -/
inductive FunctionArg
  | Wildcard
  | Column (name : String)
  deriving DecidableEq, Repr

/-- `FunctionType` of `cli/commands.rs`. -/
inductive FunctionType
  | Scalar
  | Aggregator
  deriving DecidableEq, Repr

/-- `SelectColumn` of `cli/commands.rs`. -/
inductive SelectColumn
  | Column (name : String) (aliasName : Option String)
  | Function (name : String) (args : List FunctionArg) (function_type : FunctionType)
      (aliasName : Option String)
  deriving DecidableEq, Repr

/-- Rust `str::to_uppercase` as used for function-name dispatch: the names
compared against are ASCII, so ASCII uppercasing models it. -/
def rustToUppercase (s : String) : String :=
  String.mk (s.data.map fun c => if 97 ≤ c.toNat ∧ c.toNat ≤ 122 then Char.ofNat (c.toNat - 32) else c)

/-- `add::run` of `functions/scalars/add.rs`: appends `row[col] + constant`
in text form; every lookup and parse is `unwrap`/`expect`ed. -/
def add_run (args : List String) (row : Row) : Except Failure String :=
  match args[0]? with
  | none => Except.error unwrapNone
  | some a =>
    match parseU64 a with
    | none => Except.error (Failure.fatal "No index specified.")
    | some col_index =>
      match args[1]? with
      | none => Except.error unwrapNone
      | some b =>
        match parseU64 b with
        | none => Except.error (Failure.fatal "Strictly integer value allowed.")
        | some add_value =>
          match row.cells[col_index]? with
          | none => Except.error unwrapNone
          | some none => Except.error unwrapNone
          | some (some v) =>
            match parseU64 v with
            | none => Except.error unwrapNone
            | some value => Except.ok (toString (value + add_value))

/-- `scalars::get_runner` of `functions/scalars/mod.rs`. -/
def scalars_get_runner (name : String) :
    Except Failure (List String → Row → Except Failure String) :=
  match rustToUppercase name with
  | "ADD" => Except.ok add_run
  | _ => Except.error (Failure.err ("Unknown scalar function: " ++ name))

/-- `TableReader::add_column_scalar`: pushes the new column on the schema
and, for every row, pushes the scalar's result, both through the reader's
handles — a shared handle therefore mutates the parent table in place.  The
source `unwrap`s the scalar's `Result`, so a scalar error is a panic. -/
def TableReader.add_column_scalar (t : Table) (r : TableReader)
    (col : String × ColumnInformation)
    (scalar : List String → Row → Except Failure String) (args : List String) :
    Except Failure (Table × TableReader) :=
  let schema := r.readSchema t
  let rows := r.readRows t
  let schema' := Schema.new (schema.cols ++ [col])
  match rows.mapM (fun row =>
      match scalar args row with
      | Except.ok value => Except.ok (Row.mk (row.cells ++ [some value]))
      | Except.error (Failure.err m) => Except.error (Failure.fatal m)
      | Except.error e => Except.error e) with
  | Except.error e => Except.error e
  | Except.ok rows' =>
    let (t1, hs) := Handle.writeSchema t r.schema schema'
    let (t2, hr) := Handle.writeRows t1 r.rows rows'
    Except.ok (t2, { schema := hs, rows := hr })

/-- Argument resolution of `TableReader::perform_function`: a wildcard is
rejected; the first column argument is resolved to its index in the reader's
current schema, later arguments are passed through as literals. -/
def TableReader.perform_function_args (t : Table) (r : TableReader) (name : String)
    (args : List FunctionArg) : Except Failure (List String) :=
  args.enum.mapM fun p =>
    match p.2 with
    | FunctionArg.Wildcard =>
      Except.error (Failure.err ("Invalid " ++ name ++ "; wildcard not allowed inside scalars."))
    | FunctionArg.Column column =>
      if p.1 = 0 then
        match (r.readSchema t).get_vec.findIdx? (fun c => c.1 = column) with
        | some col_index => Except.ok (toString col_index)
        | none => Except.error (Failure.err
            ("Column " ++ column ++ " does not exist. Select it first."))
      else Except.ok column

/-- Loop of `TableReader::perform_function` over the requested functions;
`get_runner`'s `Result` is `unwrap`ed, so an unknown scalar name panics. -/
def TableReader.perform_function_loop (t : Table) (r : TableReader)
    (funcs : List SelectColumn) : Except Failure (Table × TableReader) :=
  match funcs with
  | [] => Except.ok (t, r)
  | SelectColumn.Column _ _ :: rest => TableReader.perform_function_loop t r rest
  | SelectColumn.Function name args _ aliasName :: rest =>
    match TableReader.perform_function_args t r name args with
    | Except.error e => Except.error e
    | Except.ok sclr_args =>
      match (match scalars_get_runner name with
             | Except.ok f => Except.ok f
             | Except.error (Failure.err m) => Except.error (Failure.fatal m)
             | Except.error e => Except.error e) with
      | Except.error e => Except.error e
      | Except.ok runner =>
        match TableReader.add_column_scalar t r (aliasName.getD name, ColumnInformation.default)
            runner sclr_args with
        | Except.error e => Except.error e
        | Except.ok (t', r') => TableReader.perform_function_loop t' r' rest

/-- `TableReader::perform_function`. -/
def TableReader.perform_function (t : Table) (r : TableReader)
    (func_vec : List SelectColumn) : Except Failure (Table × TableReader) :=
  TableReader.perform_function_loop t r func_vec

/-- `TableReader::select`: resolves each requested name to its first position
in the schema (the source `expect`s the lookup, a panic when a name is
absent), then projects the schema and every row by those positions into a
reader owning fresh collections. -/
def TableReader.select (t : Table) (r : TableReader) (fields : List String) :
    Except Failure TableReader :=
  let schema := r.readSchema t
  match fields.mapM (fun field =>
      match schema.get_vec.findIdx? (fun c => c.1 = field) with
      | some i => Except.ok i
      | none => Except.error (Failure.fatal
          ("invalid column " ++ field ++ ": does not exist"))) with
  | Except.error e => Except.error e
  | Except.ok indices =>
    match indices.mapM (fun index =>
        match schema.get index with
        | some c => Except.ok c
        | none => Except.error (Failure.fatal "err: invalid schema entry")) with
    | Except.error e => Except.error e
    | Except.ok new_cols =>
      match (r.readRows t).mapM (fun row =>
          ((indices.mapM (fun index =>
            match row.cells[index]? with
            | some c => Except.ok c
            | none => Except.error (Failure.fatal "index out of bounds")) :
            Except Failure (List (Option String))).map Row.mk)) with
      | Except.error e => Except.error e
      | Except.ok rows' =>
        Except.ok { schema := Handle.owned (Schema.new new_cols),
                    rows := Handle.owned rows' }

/-- `count::run` of `functions/aggregators/count.rs`: a wildcard argument
counts all rows; a single column argument counts the rows whose cell vector
has an entry at that index (`row.0.get(col_index).is_some()`). -/
def count_run (args : List String) (rows : List Row) : Except Failure String :=
  if args.contains "*" then
    Except.ok (toString rows.length)
  else if 1 < args.length then
    Except.error (Failure.err "COUNT takes in a wildcard or a single column.")
  else
    match args[0]? with
    | none => Except.error unwrapNone
    | some a =>
      match parseU64 a with
      | none => Except.error (Failure.fatal "No index specified.")
      | some col_index =>
        Except.ok (toString (rows.filter fun row => (row.cells[col_index]?).isSome).length)

/-- The accumulation loop of `min::run`: `mx` is the running `max` variable
(despite its name the source keeps the smaller value).  When `mx` is unset it
takes the cell as-is (possibly null); once set, a null cell panics on the
source's `value.as_ref().unwrap()`. -/
def min_fold (col_index : Nat) (rows : List Row) (mx : Option String) :
    Except Failure (Option String) :=
  match rows with
  | [] => Except.ok mx
  | row :: rest =>
    match row.cells[col_index]? with
    | none => min_fold col_index rest mx
    | some value =>
      match mx with
      | none => min_fold col_index rest value
      | some m =>
        match value with
        | none => Except.error unwrapNone
        | some v => min_fold col_index rest (some (if rustStrLt v m then v else m))

/-- `min::run` of `functions/aggregators/min.rs`: the lexicographically least
cell text at the column index; the final `unwrap` panics when nothing was
accumulated. -/
def min_run (args : List String) (rows : List Row) : Except Failure String :=
  if 1 < args.length then
    Except.error (Failure.err "MIN strictly allows a single column.")
  else
    match args[0]? with
    | none => Except.error unwrapNone
    | some a =>
      match parseU64 a with
      | none => Except.error (Failure.fatal "No index specified.")
      | some col_index =>
        match min_fold col_index rows none with
        | Except.error e => Except.error e
        | Except.ok none => Except.error unwrapNone
        | Except.ok (some m) => Except.ok m

/-- Modelled from the spec: the accumulation loop of `max::run`.  The file
`src/functions/aggregators/max.rs` is missing from the provided sources (only
`mod max;` and the dispatch arm in `aggregators/mod.rs` refer to it); the
spec says "MIN(col), MAX(col) = lexicographic extremum of non-null cells at
col index (operates on text form)", so this mirrors `min_fold` keeping the
greater value instead. -/
def max_fold (col_index : Nat) (rows : List Row) (mx : Option String) :
    Except Failure (Option String) :=
  match rows with
  | [] => Except.ok mx
  | row :: rest =>
    match row.cells[col_index]? with
    | none => max_fold col_index rest mx
    | some value =>
      match mx with
      | none => max_fold col_index rest value
      | some m =>
        match value with
        | none => Except.error unwrapNone
        | some v => max_fold col_index rest (some (if rustStrLt m v then v else m))

/-- Modelled from the spec: `max::run`, the lexicographically greatest cell
text at the column index, mirroring `min::run` (whose source file is present)
with the comparison reversed. -/
def max_run (args : List String) (rows : List Row) : Except Failure String :=
  if 1 < args.length then
    Except.error (Failure.err "MAX strictly allows a single column.")
  else
    match args[0]? with
    | none => Except.error unwrapNone
    | some a =>
      match parseU64 a with
      | none => Except.error (Failure.fatal "No index specified.")
      | some col_index =>
        match max_fold col_index rows none with
        | Except.error e => Except.error e
        | Except.ok none => Except.error unwrapNone
        | Except.ok (some m) => Except.ok m

/-- `aggregators::run` of `functions/aggregators/mod.rs`: case-insensitive
name dispatch to the three aggregators. -/
def aggregators_run (name : String) (args : List String) (rows : List Row) :
    Except Failure String :=
  match rustToUppercase name with
  | "COUNT" => count_run args rows
  | "MAX" => max_run args rows
  | "MIN" => min_run args rows
  | _ => Except.error (Failure.err ("Unknown aggregate function: " ++ name))

/-- `Database` of `database.rs`: a name-keyed table catalog, the `HashMap`
modelled extensionally. -/
structure Database where
  name : String
  tables : String → Option Table

/-- `Database::new`. -/
def Database.new (name : String) : Database :=
  { name := name, tables := fun _ => none }

/-- `Database::_validate_foreign_key_constraint`: resolves the referenced
table and column, returning the referent column index, or the invalid-
foreign-key error (note the trailing space, as in the source). -/
def Database._validate_foreign_key_constraint (db : Database)
    (constraint : ForeignKeyConstraint) : Except Failure Nat :=
  match db.tables constraint.table_name with
  | some table =>
    match table.schema.get_vec.findIdx? (fun c => c.1 = constraint.column_name) with
    | some index => Except.ok index
    | none => Except.error (Failure.err ("invalid foreign key on " ++ constraint.table_name
        ++ "; column " ++ constraint.column_name ++ " doesn't exist "))
  | none => Except.error (Failure.err ("invalid foreign key on " ++ constraint.table_name
      ++ "; column " ++ constraint.column_name ++ " doesn't exist "))

/-- `Database::create_table`: builds the table, then for each foreign-key
constraint resolves the referent with an `if let Ok(..)` — a failed
validation is silently discarded — and stores the table unconditionally. -/
def Database.create_table (db : Database) (name : String)
    (column_definitions : List String) : Database × Except Failure Unit :=
  match Table.new name column_definitions with
  | Except.error e => (db, Except.error e)
  | Except.ok table =>
    match table.schema.get_foreign_key_constraints.foldlM
        (fun (tb : Table) (p : Nat × ForeignKeyConstraint) =>
          match db._validate_foreign_key_constraint p.2 with
          | Except.ok key_index => tb.update_foreign_key_index p.1 key_index
          | Except.error _ => Except.ok tb) table with
    | Except.error e => (db, Except.error e)
    | Except.ok table' =>
      ({ db with tables := fun n => if n = table'.name then some table' else db.tables n },
       Except.ok ())

/-- `Database::contains_table`. -/
def Database.contains_table (db : Database) (table_name : String) : Bool :=
  (db.tables table_name).isSome

/-- Whether a computation outcome is an explicit `Err` return value (as
opposed to a success or a panic). -/
def isErrResult {α : Type} : Except Failure α → Bool
  | Except.error (Failure.err _) => true
  | _ => false

/-- The index consistency invariant of the spec, executably: every stored
row's primary-key string maps in the index to that row's position. -/
def indexConsistentB (t : Table) : Bool :=
  (List.range t.rows.length).all fun i =>
    match t.rows[i]? with
    | none => false
    | some row =>
      match t._create_index_key_from_row row with
      | Except.error _ => false
      | Except.ok k => t.index.get k == some i

/-- Column information of a non-nullable `num` column, as `Table::new`
builds it. -/
def infoNum : ColumnInformation := ColumnInformation.from' DataType.Number none false

/-- An empty indexed table with a single `id num pk` column (the result of
`Table::new "t" ["id num pk"]`). -/
def tC1 : Table :=
  { name := "t", schema := Schema.new [("id", infoNum)], rows := [],
    primary_key_columns := [0], is_indexed := true, index := Index.new }

/-- `tC1` after inserting the single row `["1"]`. -/
def tC3 : Table :=
  { name := "t", schema := Schema.new [("id", infoNum)], rows := [Row.mk [some "1"]],
    primary_key_columns := [0], is_indexed := true,
    index := (Index.new).insert "1" 0 }

/-- `tC1` after inserting rows `["1"]`, `["2"]`, `["3"]`: a three-row indexed
table whose index is consistent. -/
def t3 : Table :=
  { name := "t", schema := Schema.new [("id", infoNum)],
    rows := [Row.mk [some "1"], Row.mk [some "2"], Row.mk [some "3"]],
    primary_key_columns := [0], is_indexed := true,
    index := ((Index.new.insert "1" 0).insert "2" 1).insert "3" 2 }

/-- A database holding one table `p` with column `id num pk`. -/
def dbP : Database := ((Database.new "d").create_table "p" ["id num pk"]).1

/-- Positional lookup in a list after removing the entry at `p`: entries
below `p` keep their position, those above shift down by one. -/
theorem getElem?_eraseIdx' {α : Type} (l : List α) (p j : Nat) :
    (l.eraseIdx p)[j]? = if j < p then l[j]? else l[j + 1]? := by
  induction l generalizing p j with
  | nil => simp [List.eraseIdx]
  | cons a tl ih =>
    cases p with
    | zero => simp [List.eraseIdx]
    | succ q =>
      cases j with
      | zero => simp [List.eraseIdx]
      | succ i => simpa [List.eraseIdx, Nat.succ_lt_succ_iff] using ih q i

/-- Unfolding direction of the executable index-consistency invariant: each
stored row's key maps in the index to the row's position. -/
theorem indexConsistentB_spec (t : Table) (h : indexConsistentB t = true)
    {i : Nat} {row : Row} (hrow : t.rows[i]? = some row) :
    ∃ k, t._create_index_key_from_row row = Except.ok k ∧ t.index.get k = some i := by
  have hi : i < t.rows.length := by
    by_contra hc
    rw [List.getElem?_eq_none (Nat.le_of_not_lt hc)] at hrow
    cases hrow
  have h' := (List.all_eq_true.mp h) i (List.mem_range.mpr hi)
  simp only [hrow] at h'
  cases hk : t._create_index_key_from_row row with
  | error e => rw [hk] at h'; cases h'
  | ok k =>
    rw [hk] at h'
    exact ⟨k, rfl, by simpa using h'⟩

/-- Introduction direction of the executable index-consistency invariant. -/
theorem indexConsistentB_intro (t : Table)
    (h : ∀ i row, t.rows[i]? = some row →
      ∃ k, t._create_index_key_from_row row = Except.ok k ∧ t.index.get k = some i) :
    indexConsistentB t = true := by
  apply List.all_eq_true.mpr
  intro i hi
  rw [List.mem_range] at hi
  cases hrow : t.rows[i]? with
  | none =>
    rw [List.getElem?_eq_getElem hi] at hrow
    cases hrow
  | some row =>
    obtain ⟨k, hk, hg⟩ := h i row hrow
    simp only [hrow, hk, hg, beq_self_eq_true]

/-- C2: in an indexed table satisfying the index-consistency invariant, a
successful delete of the row whose key stands at position `p` removes that
key from the index, shifts every other indexed position above `p` down by
one while the lower ones stay, and re-establishes the invariant. -/
theorem C2_delete_shifts_index (t t' : Table) (pk : List String) (row : Row) (p : Nat)
    (hidx : t.is_indexed = true)
    (hcons : indexConsistentB t = true)
    (hp : t.index.get (String.intercalate "|" pk) = some p)
    (hdel : t.delete pk = (t', Except.ok row)) :
    t'.rows = t.rows.eraseIdx p ∧
    t'.index.get (String.intercalate "|" pk) = none ∧
    (∀ k p', k ≠ String.intercalate "|" pk → t.index.get k = some p' →
      t'.index.get k = some (if p < p' then p' - 1 else p')) ∧
    indexConsistentB t' = true := by
  have hfind : t._find_row pk = some p := by
    simp [Table._find_row, hidx, hp]
  cases hv : t._validate_pk pk with
  | error e =>
    have heval : t.delete pk = (t, Except.error e) := by
      simp only [Table.delete, hv]
    rw [heval] at hdel
    exact Except.noConfusion (congrArg Prod.snd hdel)
  | ok u =>
    cases hrowp : t.rows[p]? with
    | none =>
      have heval : t.delete pk = (t, Except.error (Failure.fatal "index out of bounds")) := by
        simp only [Table.delete, hv, hfind, hrowp]
      rw [heval] at hdel
      exact Except.noConfusion (congrArg Prod.snd hdel)
    | some deleted_row =>
      have hde : t.delete pk =
          (Table.mk t.name t.schema (t.rows.eraseIdx p) t.primary_key_columns t.is_indexed
            ((t.index.remove (String.intercalate "|" pk)).shift_index_back p),
           Except.ok deleted_row) := by
        simp only [Table.delete, hv, hfind, hrowp, hidx, if_true]
      rw [hde] at hdel
      have ht' := congrArg Prod.fst hdel
      dsimp only at ht'
      subst ht'
      refine ⟨rfl, ?_, ?_, ?_⟩
      · simp [Index.get, Index.remove, Index.shift_index_back]
      · intro k p' hne hk
        simp only [Index.get] at hk
        simp [Index.get, Index.remove, Index.shift_index_back, hne, hk]
      · apply indexConsistentB_intro
        intro j rj hj
        have hj' : (t.rows.eraseIdx p)[j]? = some rj := hj
        rw [getElem?_eraseIdx'] at hj'
        by_cases hjp : j < p
        · rw [if_pos hjp] at hj'
          obtain ⟨k', hk', hg'⟩ := indexConsistentB_spec t hcons hj'
          refine ⟨k', hk', ?_⟩
          have hne : k' ≠ String.intercalate "|" pk := by
            intro heq
            rw [heq, hp] at hg'
            have := Option.some.inj hg'
            omega
          simp only [Index.get] at hg'
          simp [Index.get, Index.remove, Index.shift_index_back, hne, hg',
            Nat.not_lt.mpr (Nat.le_of_lt hjp)]
        · rw [if_neg hjp] at hj'
          obtain ⟨k', hk', hg'⟩ := indexConsistentB_spec t hcons hj'
          refine ⟨k', hk', ?_⟩
          have hne : k' ≠ String.intercalate "|" pk := by
            intro heq
            rw [heq, hp] at hg'
            have := Option.some.inj hg'
            omega
          simp only [Index.get] at hg'
          simp [Index.get, Index.remove, Index.shift_index_back, hne, hg',
            Nat.lt_succ_of_le (Nat.le_of_not_lt hjp)]

/-- Witness for C2 at a concrete input: deleting key `"2"` (position 1) from
the consistent three-row table `t3` removes `"2"` from the index, keeps
`"1" ↦ 0`, shifts `"3"` from 2 to 1, and preserves the invariant. -/
theorem C2_delete_shifts_index_witness :
    (t3.delete ["2"]).1.index.get "2" = none ∧
    (t3.delete ["2"]).1.index.get "1" = some 0 ∧
    (t3.delete ["2"]).1.index.get "3" = some 1 ∧
    indexConsistentB (t3.delete ["2"]).1 = true := by
  have h := C2_delete_shifts_index t3 (t3.delete ["2"]).1 ["2"] (Row.mk [some "2"]) 1
    rfl rfl rfl rfl
  exact ⟨h.2.1, h.2.2.1 "1" 0 (by decide) rfl, h.2.2.1 "3" 2 (by decide) rfl, h.2.2.2⟩

/-- C10: on an indexed, consistent table, `delete_all` clears the rows and
returns the prior row count but does not touch the primary-key index, so
`pk_exists` still answers `true` for the key of every previously stored
row. -/
theorem C10_delete_all_preserves_index (t : Table)
    (hidx : t.is_indexed = true) (hcons : indexConsistentB t = true) :
    (t.delete_all).1.rows = [] ∧
    (t.delete_all).2 = t.rows.length ∧
    (t.delete_all).1.index = t.index ∧
    ∀ (i : Nat) (row : Row) (k : String), t.rows[i]? = some row →
      t._create_index_key_from_row row = Except.ok k →
      (t.delete_all).1.pk_exists k = true := by
  refine ⟨rfl, rfl, rfl, ?_⟩
  intro i row k hrow hk
  obtain ⟨k', hk', hg⟩ := indexConsistentB_spec t hcons hrow
  rw [hk'] at hk
  have hkk : k' = k := by injection hk
  subst hkk
  show ((t.delete_all).1.index.get k').isSome = true
  have : (t.delete_all).1.index = t.index := rfl
  rw [this, hg]
  rfl

/-- Witness for C10 at a concrete input: after `delete_all` on the three-row
table `t3`, the rows are gone, 3 is returned, yet key `"2"` still exists. -/
theorem C10_delete_all_preserves_index_witness :
    (t3.delete_all).1.rows = [] ∧ (t3.delete_all).2 = 3 ∧
    (t3.delete_all).1.pk_exists "2" = true := by
  have h := C10_delete_all_preserves_index t3 rfl rfl
  exact ⟨h.1, h.2.1, h.2.2.2 1 (Row.mk [some "2"]) "2" rfl rfl⟩

/-- C1: the claim says a duplicate-key insert into an indexed table is
rejected.  The code does the opposite: on the empty indexed table `tC1`,
inserting `["1"]` twice succeeds both times, stores two rows with the same
primary-key string, and overwrites the index entry `"1" ↦ 0` with `"1" ↦ 1`,
leaving the first row unreachable by key. -/
theorem C1_duplicate_insert_overwrites :
    tC1.is_indexed = true ∧
    (tC1.insert ["1"]).2 = Except.ok (Row.mk [some "1"]) ∧
    (tC1.insert ["1"]).1.index.get "1" = some 0 ∧
    ((tC1.insert ["1"]).1.insert ["1"]).2 = Except.ok (Row.mk [some "1"]) ∧
    ((tC1.insert ["1"]).1.insert ["1"]).1.rows =
      [Row.mk [some "1"], Row.mk [some "1"]] ∧
    ((tC1.insert ["1"]).1.insert ["1"]).1.index.get "1" = some 1 :=
  ⟨rfl, rfl, rfl, rfl, rfl, rfl⟩

/-- C3: the claim says no chain of derived-reader operations mutates the
parent table's rows.  The chain consisting of `perform_function` applied to
the reader obtained directly from `Table::reader` writes through the shared
rows handle: on the one-row table `tC3`, applying the scalar `ADD(id, 2)`
leaves the parent table's rows vector changed in place (each row gains the
computed cell). -/
theorem C3_perform_function_mutates_parent :
    (TableReader.perform_function tC3 tC3.reader
        [SelectColumn.Function "ADD" [FunctionArg.Column "id", FunctionArg.Column "2"]
          FunctionType.Scalar none]).map (fun p => p.1.rows) =
      Except.ok [Row.mk [some "1", some "3"]] ∧
    tC3.rows = [Row.mk [some "1"]] ∧
    [Row.mk [some "1", some "3"]] ≠ [Row.mk [some "1"]] :=
  ⟨rfl, rfl, by decide⟩

/-- C4: the claim says `create_table` fails with an invalid-foreign-key error
and does not store the table when the referent is missing.  The code
validates the constraint with `if let Ok(..)`, silently discarding the error:
creating table `c` whose `pid` column references the non-existent `p.id` in
an empty database returns `Ok` and stores `c` with the constraint left
unresolved.  When the referent exists (database `dbP` holding `p`), the
claim's positive half does hold: the resolved column index is set to 0 and
the table is stored. -/
theorem C4_create_table_ignores_invalid_fk :
    ((Database.new "d").create_table "c" ["id num pk", "pid num fk p.id"]).2 =
      Except.ok () ∧
    ((Database.new "d").create_table "c" ["id num pk", "pid num fk p.id"]).1.contains_table
      "c" = true ∧
    ((((Database.new "d").create_table "c" ["id num pk", "pid num fk p.id"]).1.tables "c").map
        fun tb => tb.schema.cols.map fun c => (c.1, c.2.foreign_key_constraint)) =
      some [("id", none), ("pid", some (ForeignKeyConstraint.mk "p" "id" none))] ∧
    (dbP.create_table "c" ["id num pk", "pid num fk p.id"]).2 = Except.ok () ∧
    (((dbP.create_table "c" ["id num pk", "pid num fk p.id"]).1.tables "c").map
        fun tb => tb.schema.cols.map fun c => (c.1, c.2.foreign_key_constraint)) =
      some [("id", none), ("pid", some (ForeignKeyConstraint.mk "p" "id" (some 0)))] :=
  ⟨rfl, rfl, rfl, rfl, rfl⟩

/-- C5: the claim says `COUNT(col)` counts the non-null cells at the column
index.  The code tests `row.0.get(col_index).is_some()`, i.e. mere existence
of the cell slot: over the rows `[NULL]` and `["7"]`, `COUNT` of column 0
returns "2" although only one cell is non-null.  The wildcard half of the
claim does hold: `COUNT(*)` returns the row count, "0" on no rows. -/
theorem C5_count_column_counts_null_cells :
    count_run ["*"] [] = Except.ok "0" ∧
    count_run ["*"] [Row.mk [none], Row.mk [some "7"]] = Except.ok "2" ∧
    count_run ["0"] [Row.mk [none], Row.mk [some "7"]] = Except.ok "2" ∧
    (([Row.mk [none], Row.mk [some "7"]] : List Row).filter fun r =>
        match r.cells[0]? with
        | some (some _) => true
        | _ => false).length = 1 :=
  ⟨rfl, rfl, rfl, rfl⟩

/-- C7: the claim says both `update` and `delete` on a missing primary key
return a key error and leave the table unchanged.  On the one-row table
`tC3` and the absent key `["2"]`: `delete` indeed returns the no-match error
with the table unchanged, but `update` calls `.unwrap()` on the failed row
lookup and panics instead of returning an error (the table is unchanged up
to the panic). -/
theorem C7_update_missing_key_panics :
    tC3.update ["2"] [("id", "9")] = (tC3, Except.error (Failure.fatal "unwrap on None")) ∧
    isErrResult (tC3.update ["2"] [("id", "9")]).2 = false ∧
    tC3.delete ["2"] =
      (tC3, Except.error (Failure.err "err: invalid key; no match for this index")) :=
  ⟨rfl, rfl, rfl⟩

/-- C6 counterexample: the claim says `select` with an absent name returns an
unknown-column error value.  On the table `tC3` (single column `id`),
selecting `zz` instead hits the source's `.expect(..)` and panics; the
result is a panic, not an `Err` value. -/
theorem C6_select_unknown_column_panics :
    TableReader.select tC3 tC3.reader ["zz"] =
      Except.error (Failure.fatal "invalid column zz: does not exist") ∧
    isErrResult (TableReader.select tC3 tC3.reader ["zz"]) = false :=
  ⟨rfl, rfl⟩

/-- C8 counterexample: the claim says `insert_many` returns the count of
successes before the first failure.  Inserting `["1"], ["x"], ["2"]` into the
empty `num`-keyed table `tC1` fails on `["x"]`: the first row is retained,
but the call returns the validation error, not the count 1. -/
theorem C8_insert_many_returns_error_not_count :
    (tC1.insert_many [["1"], ["x"], ["2"]]).2 =
      Except.error (Failure.err "invalid x: value not allowed on column 'id' (NUM)") ∧
    (tC1.insert_many [["1"], ["x"], ["2"]]).2 ≠ Except.ok 1 ∧
    (tC1.insert_many [["1"], ["x"], ["2"]]).1.rows = [Row.mk [some "1"]] := by
  refine ⟨rfl, ?_, rfl⟩
  intro h
  exact Except.noConfusion
    (h : Except.error (Failure.err "invalid x: value not allowed on column 'id' (NUM)") =
      (Except.ok 1 : Except Failure Nat))

/-- A found index points at an element satisfying the predicate, and `find?`
returns that same (first) element. -/
theorem find?_of_findIdx? {α : Type} (p : α → Bool) :
    ∀ (l : List α) (i : Nat), l.findIdx? p = some i →
      ∃ a, l[i]? = some a ∧ p a = true ∧ l.find? p = some a := by
  intro l
  induction l with
  | nil => intro i h; simp at h
  | cons x xs ih =>
    intro i h
    rw [List.findIdx?_cons] at h
    by_cases hp : p x
    · rw [if_pos hp] at h
      obtain rfl : i = 0 := (Option.some.inj h).symm
      exact ⟨x, by simp, hp, by simp [List.find?_cons_of_pos _ hp]⟩
    · rw [if_neg hp, List.findIdx?_succ] at h
      obtain ⟨i', hi', rfl⟩ := Option.map_eq_some'.mp h
      obtain ⟨a, ha, hpa, hfind⟩ := ih i' hi'
      exact ⟨a, by simpa using ha, hpa, by simp [List.find?_cons_of_neg _ hp, hfind]⟩

/-- The index found in `l` also selects the paired entry of a same-length
list `m`, and `find?` over `l.zip m` returns that pair. -/
theorem find?_zip_of_findIdx? {α β : Type} (p : α → Bool) :
    ∀ (l : List α) (m : List β) (i : Nat), l.findIdx? p = some i → l.length = m.length →
      ∃ a b, l[i]? = some a ∧ m[i]? = some b ∧ p a = true ∧
        (l.zip m).find? (fun c => p c.1) = some (a, b) := by
  intro l
  induction l with
  | nil => intro m i h; simp at h
  | cons x xs ih =>
    intro m i h hlen
    cases m with
    | nil => simp at hlen
    | cons y ys =>
      rw [List.findIdx?_cons] at h
      by_cases hp : p x
      · rw [if_pos hp] at h
        obtain rfl : i = 0 := (Option.some.inj h).symm
        refine ⟨x, y, by simp, by simp, hp, ?_⟩
        simp only [List.zip_cons_cons]
        exact List.find?_cons_of_pos _ (by simpa using hp)
      · rw [if_neg hp, List.findIdx?_succ] at h
        obtain ⟨i', hi', rfl⟩ := Option.map_eq_some'.mp h
        have hlen' : xs.length = ys.length := by simpa using hlen
        obtain ⟨a, b, ha, hb, hpa, hfind⟩ := ih ys i' hi' hlen'
        refine ⟨a, b, by simpa using ha, by simpa using hb, hpa, ?_⟩
        simp only [List.zip_cons_cons]
        rw [List.find?_cons_of_neg _ (by simpa using hp)]
        exact hfind

/-- With a missing name among the requested fields, the index-resolution
pass of `select` reaches the panicking arm. -/
theorem select_indices_error (fcols : List (String × ColumnInformation)) :
    ∀ (fields : List String), (∃ f ∈ fields, ∀ c ∈ fcols, c.1 ≠ f) →
      ∃ msg, (fields.mapM fun field =>
        match fcols.findIdx? (fun c => c.1 = field) with
        | some i => Except.ok i
        | none => (Except.error (Failure.fatal
            ("invalid column " ++ field ++ ": does not exist")) : Except Failure Nat)) =
        Except.error (Failure.fatal msg) := by
  intro fields
  induction fields with
  | nil => rintro ⟨f, hf, -⟩; simp at hf
  | cons g gs ih =>
    rintro ⟨f, hf, habs⟩
    rcases List.mem_cons.mp hf with rfl | hf'
    · have hnone : fcols.findIdx? (fun c => c.1 = f) = none := by
        rw [List.findIdx?_eq_none_iff]
        intro c hc
        simpa using habs c hc
      exact ⟨"invalid column " ++ f ++ ": does not exist",
        by simp only [List.mapM_cons, hnone]; rfl⟩
    · cases hfi : fcols.findIdx? (fun c => c.1 = g) with
      | none =>
        exact ⟨"invalid column " ++ g ++ ": does not exist",
          by simp only [List.mapM_cons, hfi]; rfl⟩
      | some i =>
        obtain ⟨msg, hmsg⟩ := ih ⟨f, hf', habs⟩
        exact ⟨msg, by simp only [List.mapM_cons, hfi, hmsg]; rfl⟩

/-- With every requested name present, the index-resolution pass of `select`
succeeds, producing the first matching index for each field in order. -/
theorem select_indices_ok (fcols : List (String × ColumnInformation)) :
    ∀ (fields : List String), (∀ f ∈ fields, ∃ c ∈ fcols, c.1 = f) →
      ∃ indices, (fields.mapM fun field =>
          match fcols.findIdx? (fun c => c.1 = field) with
          | some i => Except.ok i
          | none => (Except.error (Failure.fatal
              ("invalid column " ++ field ++ ": does not exist")) : Except Failure Nat)) =
          Except.ok indices ∧
        List.Forall₂ (fun f i => fcols.findIdx? (fun c => c.1 = f) = some i) fields indices := by
  intro fields
  induction fields with
  | nil => exact fun _ => ⟨[], rfl, List.Forall₂.nil⟩
  | cons g gs ih =>
    intro h
    obtain ⟨c, hc, hcf⟩ := h g (List.mem_cons_self g gs)
    have hex : ∃ x, x ∈ fcols ∧ (fun c => decide (c.1 = g)) x := ⟨c, hc, by simp [hcf]⟩
    have hfi := List.findIdx?_eq_some_of_exists hex
    obtain ⟨is, his, hfa⟩ := ih fun f hff => h f (List.mem_cons_of_mem _ hff)
    exact ⟨fcols.findIdx (fun c => decide (c.1 = g)) :: is,
      by simp only [List.mapM_cons, hfi, his]; rfl, List.Forall₂.cons hfi hfa⟩

/-- The schema-projection pass of `select` looks up each resolved index; the
result is, field by field, the first schema entry bearing that name. -/
theorem select_cols_ok (fcols : List (String × ColumnInformation))
    (fields : List String) (indices : List Nat)
    (h : List.Forall₂ (fun f i => fcols.findIdx? (fun c => c.1 = f) = some i) fields indices) :
    ∃ cols', (indices.mapM fun index =>
        match fcols[index]? with
        | some c => Except.ok c
        | none => (Except.error (Failure.fatal "err: invalid schema entry") :
            Except Failure (String × ColumnInformation))) = Except.ok cols' ∧
      fields.mapM (fun f => fcols.find? fun c => c.1 = f) = some cols' := by
  induction h with
  | nil => exact ⟨[], rfl, rfl⟩
  | @cons f i fs is hfi _ ih =>
    obtain ⟨cols'', h1, h2⟩ := ih
    obtain ⟨a, ha, hpa, hfind⟩ := find?_of_findIdx? _ fcols i hfi
    exact ⟨a :: cols'', by simp only [List.mapM_cons, ha, h1]; rfl,
      by simp only [List.mapM_cons, hfind, h2]; rfl⟩

/-- The per-row projection pass of `select`: each resolved index selects the
cell paired (in schema order) with the first schema entry of that name. -/
theorem select_row_cells_ok (fcols : List (String × ColumnInformation))
    (fields : List String) (indices : List Nat)
    (h : List.Forall₂ (fun f i => fcols.findIdx? (fun c => c.1 = f) = some i) fields indices) :
    ∀ (cells : List (Option String)), cells.length = fcols.length →
      ∃ out, (indices.mapM fun index =>
          match cells[index]? with
          | some c => Except.ok c
          | none => (Except.error (Failure.fatal "index out of bounds") :
              Except Failure (Option String))) = Except.ok out ∧
        fields.mapM (fun f => ((fcols.zip cells).find? fun c => c.1.1 = f).map Prod.snd) =
          some out := by
  induction h with
  | nil => exact fun cells _ => ⟨[], rfl, rfl⟩
  | @cons f i fs is hfi _ ih =>
    intro cells hlen
    obtain ⟨out'', h1, h2⟩ := ih cells hlen
    obtain ⟨a, b, ha, hb, hpa, hfind⟩ :=
      find?_zip_of_findIdx? (fun c => c.1 = f) fcols cells i hfi hlen.symm
    have hfind' : ((fcols.zip cells).find? fun c => c.1.1 = f) = some (a, b) := hfind
    exact ⟨b :: out'', by simp only [List.mapM_cons, hb, h1]; rfl,
      by simp only [List.mapM_cons, hfind', h2]; rfl⟩

/-- The rows pass of `select` over a conforming rows vector. -/
theorem select_rows_ok (fcols : List (String × ColumnInformation))
    (fields : List String) (indices : List Nat)
    (h : List.Forall₂ (fun f i => fcols.findIdx? (fun c => c.1 = f) = some i) fields indices) :
    ∀ (rows : List Row), (∀ row ∈ rows, row.cells.length = fcols.length) →
      ∃ rcs, (rows.mapM fun row =>
          ((indices.mapM fun index =>
            match row.cells[index]? with
            | some c => Except.ok c
            | none => (Except.error (Failure.fatal "index out of bounds") :
                Except Failure (Option String)))).map Row.mk) = Except.ok (rcs.map Row.mk) ∧
        rows.mapM (fun row => fields.mapM fun f =>
          ((fcols.zip row.cells).find? fun c => c.1.1 = f).map Prod.snd) = some rcs := by
  intro rows
  induction rows with
  | nil => exact fun _ => ⟨[], rfl, rfl⟩
  | cons row rest ih =>
    intro hlen
    obtain ⟨out, h1, h2⟩ := select_row_cells_ok fcols fields indices h row.cells
      (hlen row (List.mem_cons_self row rest))
    obtain ⟨rcs, h3, h4⟩ := ih fun rr hrr => hlen rr (List.mem_cons_of_mem _ hrr)
    exact ⟨out :: rcs, by simp only [List.mapM_cons, h1, h3]; rfl,
      by simp only [List.mapM_cons, h2, h4]; rfl⟩

/-- C6 (amended): when some requested name is absent from the reader's
schema, `select` panics (the `.expect` in the source) rather than returning
an error value; when every name is present, `select` returns a reader owning
fresh collections: its schema lists, in requested order, the first schema
entry bearing each name, and each row is projected to the cells paired with
those entries. -/
theorem C6_select_amended (t : Table) (r : TableReader) (fields : List String) :
    ((∃ f ∈ fields, ∀ c ∈ (r.readSchema t).cols, c.1 ≠ f) →
      ∃ msg, TableReader.select t r fields = Except.error (Failure.fatal msg)) ∧
    ((∀ f ∈ fields, ∃ c ∈ (r.readSchema t).cols, c.1 = f) →
     (∀ row ∈ r.readRows t, row.cells.length = (r.readSchema t).cols.length) →
      ∃ cols' rowsCells,
        (fields.mapM fun f => (r.readSchema t).cols.find? fun c => c.1 = f) = some cols' ∧
        ((r.readRows t).mapM fun row => fields.mapM fun f =>
          (((r.readSchema t).cols.zip row.cells).find? fun c => c.1.1 = f).map Prod.snd) =
          some rowsCells ∧
        TableReader.select t r fields =
          Except.ok { schema := Handle.owned (Schema.new cols'),
                      rows := Handle.owned (rowsCells.map Row.mk) }) := by
  constructor
  · intro habs
    obtain ⟨msg, hmsg⟩ := select_indices_error (r.readSchema t).cols fields habs
    refine ⟨msg, ?_⟩
    simp only [TableReader.select, Schema.get_vec, hmsg]
  · intro hall hlen
    obtain ⟨indices, hidx, hfa⟩ := select_indices_ok (r.readSchema t).cols fields hall
    obtain ⟨cols', hcols, hcolsO⟩ := select_cols_ok (r.readSchema t).cols fields indices hfa
    obtain ⟨rcs, hrowsE, hrowsO⟩ :=
      select_rows_ok (r.readSchema t).cols fields indices hfa (r.readRows t) hlen
    refine ⟨cols', rcs, hcolsO, hrowsO, ?_⟩
    simp only [TableReader.select, Schema.get_vec, Schema.get, hidx, hcols, hrowsE]

/-- Witness for C6 at concrete inputs: on the one-column table `tC3`,
selecting the absent `zz` panics, and selecting the present `id` projects
schema and rows as described. -/
theorem C6_select_amended_witness :
    (∃ msg, TableReader.select tC3 tC3.reader ["zz"] = Except.error (Failure.fatal msg)) ∧
    (∃ cols' rowsCells,
      ((["id"] : List String).mapM fun f =>
        (tC3.reader.readSchema tC3).cols.find? fun c => c.1 = f) = some cols' ∧
      ((tC3.reader.readRows tC3).mapM fun row => (["id"] : List String).mapM fun f =>
        (((tC3.reader.readSchema tC3).cols.zip row.cells).find? fun c => c.1.1 = f).map
          Prod.snd) = some rowsCells ∧
      TableReader.select tC3 tC3.reader ["id"] =
        Except.ok { schema := Handle.owned (Schema.new cols'),
                    rows := Handle.owned (rowsCells.map Row.mk) }) :=
  ⟨(C6_select_amended tC3 tC3.reader ["zz"]).1 (by decide),
   (C6_select_amended tC3 tC3.reader ["id"]).2 (by decide) (by decide)⟩

/-- A successful insert appends exactly the validated row. -/
theorem insert_ok_rows (t t' : Table) (v : List String) (r : Row)
    (h : t.insert v = (t', Except.ok r)) :
    t'.rows = t.rows ++ [r] ∧ t'.rows.length = t.rows.length + 1 := by
  cases hval : t._validate_data v with
  | error e =>
    have heval : t.insert v = (t, Except.error e) := by
      simp only [Table.insert, hval]
    rw [heval] at h
    exact Except.noConfusion (congrArg Prod.snd h)
  | ok row =>
    by_cases hi : t.is_indexed = true
    · cases hkey : t._create_index_key_from_row row with
      | error e =>
        have heval : t.insert v = (t, Except.error e) := by
          simp only [Table.insert, hval, hi, if_true, hkey]
        rw [heval] at h
        exact Except.noConfusion (congrArg Prod.snd h)
      | ok key =>
        have heval : t.insert v =
            ({ t with index := t.index.insert key t.rows.length, rows := t.rows ++ [row] },
             Except.ok row) := by
          simp [Table.insert, hval, hi, hkey]
        rw [heval] at h
        injection h with h1 h2
        subst h1
        obtain rfl : row = r := Except.ok.inj h2
        exact ⟨rfl, by simp⟩
    · have heval : t.insert v = ({ t with rows := t.rows ++ [row] }, Except.ok row) := by
        simp [Table.insert, hval, hi]
      rw [heval] at h
      injection h with h1 h2
      subst h1
      obtain rfl : row = r := Except.ok.inj h2
      exact ⟨rfl, by simp⟩

/-- A failed insert leaves the table untouched. -/
theorem insert_error_state (t t' : Table) (v : List String) (e : Failure)
    (h : t.insert v = (t', Except.error e)) : t' = t := by
  cases hval : t._validate_data v with
  | error e' =>
    have heval : t.insert v = (t, Except.error e') := by
      simp only [Table.insert, hval]
    rw [heval] at h
    exact (congrArg Prod.fst h).symm
  | ok row =>
    by_cases hi : t.is_indexed = true
    · cases hkey : t._create_index_key_from_row row with
      | error e' =>
        have heval : t.insert v = (t, Except.error e') := by
          simp only [Table.insert, hval, hi, if_true, hkey]
        rw [heval] at h
        exact (congrArg Prod.fst h).symm
      | ok key =>
        have heval : t.insert v =
            ({ t with index := t.index.insert key t.rows.length, rows := t.rows ++ [row] },
             Except.ok row) := by
          simp [Table.insert, hval, hi, hkey]
        rw [heval] at h
        exact Except.noConfusion (congrArg Prod.snd h)
    · have heval : t.insert v = ({ t with rows := t.rows ++ [row] }, Except.ok row) := by
        simp [Table.insert, hval, hi]
      rw [heval] at h
      exact Except.noConfusion (congrArg Prod.snd h)

/-- A fully successful `insert_many` loop counts every row and appends that
many rows. -/
theorem insert_many_loop_ok (values : List (List String)) :
    ∀ (t : Table) (n m : Nat), (Table.insert_many_loop t values n).2 = Except.ok m →
      m = n + values.length ∧
      (Table.insert_many_loop t values n).1.rows.length = t.rows.length + values.length := by
  induction values with
  | nil =>
    intro t n m h
    have hm : n = m := Except.ok.inj (h : Except.ok n = Except.ok m)
    subst hm
    exact ⟨rfl, rfl⟩
  | cons v rest ih =>
    intro t n m h
    cases hins : t.insert v with
    | mk t' res =>
      cases res with
      | ok r =>
        have hloop : Table.insert_many_loop t (v :: rest) n =
            Table.insert_many_loop t' rest (n + 1) := by
          simp only [Table.insert_many_loop, hins]
        rw [hloop] at h ⊢
        obtain ⟨hm, hlen⟩ := ih t' (n + 1) m h
        have hrows := (insert_ok_rows t t' v r hins).2
        constructor
        · simp only [List.length_cons]; omega
        · simp only [List.length_cons]; omega
      | error e =>
        have hloop : Table.insert_many_loop t (v :: rest) n = (t', Except.error e) := by
          simp only [Table.insert_many_loop, hins]
        rw [hloop] at h
        exact Except.noConfusion h

/-- A failing `insert_many` loop stops at the first failing row: some `k`-th
row fails on the state reached after the first `k` successes, that prefix
state (with its `k` freshly appended rows) is what the loop returns, along
with the failing row's error. -/
theorem insert_many_loop_error (values : List (List String)) :
    ∀ (t : Table) (n : Nat) (e : Failure),
      (Table.insert_many_loop t values n).2 = Except.error e →
      ∃ k v, values[k]? = some v ∧
        (Table.insert_many_loop t (values.take k) n).2 = Except.ok (n + k) ∧
        (Table.insert_many_loop t values n).1 =
          (Table.insert_many_loop t (values.take k) n).1 ∧
        ((Table.insert_many_loop t (values.take k) n).1.insert v).2 = Except.error e ∧
        (Table.insert_many_loop t (values.take k) n).1.rows.length = t.rows.length + k := by
  induction values with
  | nil =>
    intro t n e h
    exact Except.noConfusion (h : Except.ok n = Except.error e)
  | cons v rest ih =>
    intro t n e h
    cases hins : t.insert v with
    | mk t' res =>
      cases res with
      | error e' =>
        have hloop : Table.insert_many_loop t (v :: rest) n = (t', Except.error e') := by
          simp only [Table.insert_many_loop, hins]
        rw [hloop] at h
        obtain rfl : e' = e := by simpa using h
        have hstate : t' = t := insert_error_state t t' v e' hins
        refine ⟨0, v, by simp, by simp [Table.insert_many_loop], ?_, ?_, by
          simp [Table.insert_many_loop]⟩
        · rw [hloop]
          simpa [Table.insert_many_loop] using hstate
        · show ((Table.insert_many_loop t [] n).1.insert v).2 = Except.error e'
          have : (Table.insert_many_loop t [] n).1 = t := rfl
          rw [this, hins]
      | ok r =>
        have hloop : Table.insert_many_loop t (v :: rest) n =
            Table.insert_many_loop t' rest (n + 1) := by
          simp only [Table.insert_many_loop, hins]
        rw [hloop] at h
        obtain ⟨k, w, hw, h1, h2, h3, h4⟩ := ih t' (n + 1) e h
        have hrows := (insert_ok_rows t t' v r hins).2
        have htake : Table.insert_many_loop t ((v :: rest).take (k + 1)) n =
            Table.insert_many_loop t' (rest.take k) (n + 1) := by
          simp only [List.take_succ_cons, Table.insert_many_loop, hins]
        refine ⟨k + 1, w, by simpa using hw, ?_, ?_, ?_, ?_⟩
        · rw [htake, h1]
          congr 1
          omega
        · rw [hloop, htake]
          exact h2
        · rw [htake]
          exact h3
        · rw [htake]
          omega

/-- C8 (amended): `insert_many` returns the total count exactly when every
row succeeds; a failure at the `k`-th row stops the loop, keeps the `k`
previously inserted rows, and returns that row's error instead of a count. -/
theorem C8_insert_many_amended (t : Table) (values : List (List String)) :
    (∀ n, (t.insert_many values).2 = Except.ok n →
      n = values.length ∧
      (t.insert_many values).1.rows.length = t.rows.length + values.length) ∧
    (∀ e, (t.insert_many values).2 = Except.error e →
      ∃ k v, values[k]? = some v ∧
        (t.insert_many (values.take k)).2 = Except.ok k ∧
        (t.insert_many values).1 = (t.insert_many (values.take k)).1 ∧
        ((t.insert_many (values.take k)).1.insert v).2 = Except.error e ∧
        (t.insert_many (values.take k)).1.rows.length = t.rows.length + k) := by
  constructor
  · intro n h
    obtain ⟨hm, hlen⟩ := insert_many_loop_ok values t 0 n h
    exact ⟨by omega, hlen⟩
  · intro e h
    obtain ⟨k, v, hv, h1, h2, h3, h4⟩ := insert_many_loop_error values t 0 e h
    exact ⟨k, v, hv, by simpa using h1, h2, h3, h4⟩

/-- Witness for C8 at concrete inputs: inserting `["1"], ["2"]` into `tC1`
succeeds with count 2 and two new rows; inserting `["1"], ["x"]` fails at
row index 1 with the prefix of one row retained and the validation error
returned. -/
theorem C8_insert_many_amended_witness :
    (2 = ([["1"], ["2"]] : List (List String)).length ∧
      (tC1.insert_many [["1"], ["2"]]).1.rows.length = tC1.rows.length + 2) ∧
    (∃ k v, ([["1"], ["x"]] : List (List String))[k]? = some v ∧
      (tC1.insert_many ([["1"], ["x"]].take k)).2 = Except.ok k ∧
      (tC1.insert_many [["1"], ["x"]]).1 = (tC1.insert_many ([["1"], ["x"]].take k)).1 ∧
      ((tC1.insert_many ([["1"], ["x"]].take k)).1.insert v).2 =
        Except.error (Failure.err "invalid x: value not allowed on column 'id' (NUM)") ∧
      (tC1.insert_many ([["1"], ["x"]].take k)).1.rows.length = tC1.rows.length + k) :=
  ⟨(C8_insert_many_amended tC1 [["1"], ["2"]]).1 2 rfl,
   (C8_insert_many_amended tC1 [["1"], ["x"]]).2
     (Failure.err "invalid x: value not allowed on column 'id' (NUM)") rfl⟩

/-- Characters with equal code points are equal. -/
theorem char_eq_of_toNat_eq (p q : Char) (h : p.toNat = q.toNat) : p = q :=
  Char.ofNat_toNat p ▸ Char.ofNat_toNat q ▸ congrArg Char.ofNat h

/-- The lexicographic character-list order is irreflexive. -/
theorem charListLt_irrefl (l : List Char) : charListLt l l = false := by
  induction l with
  | nil => rfl
  | cons c cs ih => simp [charListLt, ih]

/-- The lexicographic character-list order is transitive. -/
theorem charListLt_trans : ∀ {a b c : List Char},
    charListLt a b = true → charListLt b c = true → charListLt a c = true := by
  intro a
  induction a with
  | nil =>
    intro b c h₁ h₂
    cases b with
    | nil => cases h₁
    | cons x xs =>
      cases c with
      | nil => cases h₂
      | cons y ys => rfl
  | cons p ps ih =>
    intro b c h₁ h₂
    cases b with
    | nil => cases h₁
    | cons q qs =>
      cases c with
      | nil => cases h₂
      | cons r rs =>
        simp only [charListLt] at h₁ h₂ ⊢
        by_cases hpq : p.toNat < q.toNat
        · by_cases hqr : q.toNat < r.toNat
          · rw [if_pos (by omega)]
          · rw [if_neg hqr] at h₂
            by_cases hrq : r.toNat < q.toNat
            · rw [if_pos hrq] at h₂; cases h₂
            · rw [if_pos (by omega)]
        · rw [if_neg hpq] at h₁
          by_cases hqp : q.toNat < p.toNat
          · rw [if_pos hqp] at h₁; cases h₁
          · rw [if_neg hqp] at h₁
            by_cases hqr : q.toNat < r.toNat
            · rw [if_pos (by omega)]
            · rw [if_neg hqr] at h₂
              by_cases hrq : r.toNat < q.toNat
              · rw [if_pos hrq] at h₂; cases h₂
              · rw [if_neg hrq] at h₂
                rw [if_neg (by omega), if_neg (by omega)]
                exact ih h₁ h₂

/-- Two character lists neither of which is lexicographically below the
other are equal. -/
theorem charListLt_connex : ∀ {a b : List Char},
    charListLt a b = false → charListLt b a = false → a = b := by
  intro a
  induction a with
  | nil =>
    intro b h₁ _
    cases b with
    | nil => rfl
    | cons y ys => cases h₁
  | cons p ps ih =>
    intro b h₁ h₂
    cases b with
    | nil => cases h₂
    | cons q qs =>
      simp only [charListLt] at h₁ h₂
      by_cases hpq : p.toNat < q.toNat
      · rw [if_pos hpq] at h₁; cases h₁
      · rw [if_neg hpq] at h₁
        by_cases hqp : q.toNat < p.toNat
        · rw [if_pos hqp] at h₂; cases h₂
        · rw [if_neg hqp] at h₁
          rw [if_neg hqp, if_neg hpq] at h₂
          rw [char_eq_of_toNat_eq p q (by omega), ih h₁ h₂]

/-- `rustStrLt` is irreflexive. -/
theorem rustStrLt_irrefl (s : String) : rustStrLt s s = false :=
  charListLt_irrefl s.data

/-- `rustStrLt` is transitive. -/
theorem rustStrLt_trans {a b c : String} (h₁ : rustStrLt a b = true)
    (h₂ : rustStrLt b c = true) : rustStrLt a c = true :=
  charListLt_trans h₁ h₂

/-- Two strings neither of which is below the other are equal. -/
theorem rustStrLt_connex {a b : String} (h₁ : rustStrLt a b = false)
    (h₂ : rustStrLt b a = false) : a = b := by
  cases a with
  | mk da =>
    cases b with
    | mk db => exact congrArg String.mk (charListLt_connex h₁ h₂)

/-- The accumulation loop of `min::run`, started on a seed value, returns a
value of the seed-or-cells set that no member of that set is strictly
below. -/
theorem min_fold_spec (col : Nat) :
    ∀ (rows : List Row) (vals : List String) (m0 : String),
      rows.map (fun r => r.cells[col]?) = vals.map (fun v => some (some v)) →
      ∃ m, min_fold col rows (some m0) = Except.ok (some m) ∧
        m ∈ m0 :: vals ∧ ∀ v ∈ m0 :: vals, rustStrLt v m = false := by
  intro rows
  induction rows with
  | nil =>
    intro vals m0 h
    have hv : vals = [] := by
      cases vals with
      | nil => rfl
      | cons a b => simp at h
    subst hv
    refine ⟨m0, rfl, List.mem_cons_self _ _, ?_⟩
    intro v hv
    obtain rfl : v = m0 := by simpa using hv
    exact rustStrLt_irrefl _
  | cons row rest ih =>
    intro vals m0 h
    cases vals with
    | nil => simp at h
    | cons v vs =>
      simp only [List.map_cons, List.cons.injEq] at h
      obtain ⟨hcell, htail⟩ := h
      have hstep : min_fold col (row :: rest) (some m0) =
          min_fold col rest (some (if rustStrLt v m0 then v else m0)) := by
        simp only [min_fold, hcell]
      rw [hstep]
      obtain ⟨m, hm, hmem, hleast⟩ := ih vs (if rustStrLt v m0 then v else m0) htail
      refine ⟨m, hm, ?_, ?_⟩
      · rcases List.mem_cons.mp hmem with h' | h'
        · by_cases hb : rustStrLt v m0
          · rw [if_pos hb] at h'
            exact h' ▸ (by simp)
          · rw [if_neg hb] at h'
            exact h' ▸ (by simp)
        · exact List.mem_cons_of_mem _ (List.mem_cons_of_mem _ h')
      · intro x hx
        rcases List.mem_cons.mp hx with rfl | hx'
        · by_cases hb : rustStrLt v x
          · have hvm : rustStrLt v m = false :=
              hleast v (by rw [if_pos hb]; exact List.mem_cons_self _ _)
            by_contra hc
            have hm0m : rustStrLt x m = true := by simpa using hc
            rw [rustStrLt_trans hb hm0m] at hvm
            cases hvm
          · exact hleast x (by rw [if_neg hb]; exact List.mem_cons_self _ _)
        · rcases List.mem_cons.mp hx' with rfl | hx''
          · by_cases hb : rustStrLt x m0
            · exact hleast x (by rw [if_pos hb]; exact List.mem_cons_self _ _)
            · have hm0m : rustStrLt m0 m = false :=
                hleast m0 (by rw [if_neg hb]; exact List.mem_cons_self _ _)
              by_contra hc
              have hvm : rustStrLt x m = true := by simpa using hc
              by_cases hd : rustStrLt m0 x
              · rw [rustStrLt_trans hd hvm] at hm0m
                cases hm0m
              · have hb' : rustStrLt x m0 = false := by simpa using hb
                have hd' : rustStrLt m0 x = false := by simpa using hd
                rw [rustStrLt_connex hb' hd'] at hvm
                rw [hvm] at hm0m
                cases hm0m
          · exact hleast x (List.mem_cons_of_mem _ hx'')

/-- The accumulation loop of the spec-modelled `max::run`, started on a seed
value, returns a value of the seed-or-cells set that is strictly below no
member of that set. -/
theorem max_fold_spec (col : Nat) :
    ∀ (rows : List Row) (vals : List String) (m0 : String),
      rows.map (fun r => r.cells[col]?) = vals.map (fun v => some (some v)) →
      ∃ m, max_fold col rows (some m0) = Except.ok (some m) ∧
        m ∈ m0 :: vals ∧ ∀ v ∈ m0 :: vals, rustStrLt m v = false := by
  intro rows
  induction rows with
  | nil =>
    intro vals m0 h
    have hv : vals = [] := by
      cases vals with
      | nil => rfl
      | cons a b => simp at h
    subst hv
    refine ⟨m0, rfl, List.mem_cons_self _ _, ?_⟩
    intro v hv
    obtain rfl : v = m0 := by simpa using hv
    exact rustStrLt_irrefl _
  | cons row rest ih =>
    intro vals m0 h
    cases vals with
    | nil => simp at h
    | cons v vs =>
      simp only [List.map_cons, List.cons.injEq] at h
      obtain ⟨hcell, htail⟩ := h
      have hstep : max_fold col (row :: rest) (some m0) =
          max_fold col rest (some (if rustStrLt m0 v then v else m0)) := by
        simp only [max_fold, hcell]
      rw [hstep]
      obtain ⟨m, hm, hmem, hgreat⟩ := ih vs (if rustStrLt m0 v then v else m0) htail
      refine ⟨m, hm, ?_, ?_⟩
      · rcases List.mem_cons.mp hmem with h' | h'
        · by_cases hb : rustStrLt m0 v
          · rw [if_pos hb] at h'
            exact h' ▸ (by simp)
          · rw [if_neg hb] at h'
            exact h' ▸ (by simp)
        · exact List.mem_cons_of_mem _ (List.mem_cons_of_mem _ h')
      · intro x hx
        rcases List.mem_cons.mp hx with rfl | hx'
        · by_cases hb : rustStrLt x v
          · have hmv : rustStrLt m v = false :=
              hgreat v (by rw [if_pos hb]; exact List.mem_cons_self _ _)
            by_contra hc
            have hmx : rustStrLt m x = true := by simpa using hc
            rw [rustStrLt_trans hmx hb] at hmv
            cases hmv
          · exact hgreat x (by rw [if_neg hb]; exact List.mem_cons_self _ _)
        · rcases List.mem_cons.mp hx' with rfl | hx''
          · by_cases hb : rustStrLt m0 x
            · exact hgreat x (by rw [if_pos hb]; exact List.mem_cons_self _ _)
            · have hmm0 : rustStrLt m m0 = false :=
                hgreat m0 (by rw [if_neg hb]; exact List.mem_cons_self _ _)
              by_contra hc
              have hmx : rustStrLt m x = true := by simpa using hc
              by_cases hd : rustStrLt x m0
              · rw [rustStrLt_trans hmx hd] at hmm0
                cases hmm0
              · have hb' : rustStrLt m0 x = false := by simpa using hb
                have hd' : rustStrLt x m0 = false := by simpa using hd
                rw [(rustStrLt_connex hb' hd').symm] at hmx
                rw [hmx] at hmm0
                cases hmm0
          · exact hgreat x (List.mem_cons_of_mem _ hx'')

/-- C9: over a non-empty rows vector all of whose cells at the requested
column exist and are non-null, `aggregators::run` dispatches `MIN` (from the
source) and `MAX` (spec-modelled, its source file being absent) to the
lexicographic extremum of the cell texts: the returned values belong to the
cell texts, no cell text is strictly below the MIN result, and the MAX
result is strictly below no cell text — comparison being Rust's text
ordering `rustStrLt`, not numeric order. -/
theorem C9_min_max_lexicographic (s : String) (col : Nat) (rows : List Row)
    (vals : List String)
    (hs : parseU64 s = some col)
    (hvals : rows.map (fun r => r.cells[col]?) = vals.map (fun v => some (some v)))
    (hne : rows ≠ []) :
    ∃ mn mx, aggregators_run "MIN" [s] rows = Except.ok mn ∧
      aggregators_run "MAX" [s] rows = Except.ok mx ∧
      mn ∈ vals ∧ (∀ v ∈ vals, rustStrLt v mn = false) ∧
      mx ∈ vals ∧ (∀ v ∈ vals, rustStrLt mx v = false) := by
  cases rows with
  | nil => exact absurd rfl hne
  | cons r0 rest =>
    cases vals with
    | nil => simp at hvals
    | cons v0 vs =>
      simp only [List.map_cons, List.cons.injEq] at hvals
      obtain ⟨hcell, htail⟩ := hvals
      obtain ⟨mn, hmn, hmem, hleast⟩ := min_fold_spec col rest vs v0 htail
      obtain ⟨mx, hmx, hmemx, hgreat⟩ := max_fold_spec col rest vs v0 htail
      have hfold : min_fold col (r0 :: rest) none = min_fold col rest (some v0) := by
        simp only [min_fold, hcell]
      have hfoldx : max_fold col (r0 :: rest) none = max_fold col rest (some v0) := by
        simp only [max_fold, hcell]
      refine ⟨mn, mx, ?_, ?_, hmem, hleast, hmemx, hgreat⟩
      · show min_run [s] (r0 :: rest) = Except.ok mn
        show (match parseU64 s with
              | none => Except.error (Failure.fatal "No index specified.")
              | some col_index =>
                match min_fold col_index (r0 :: rest) none with
                | Except.error e => Except.error e
                | Except.ok none => Except.error unwrapNone
                | Except.ok (some m) => Except.ok m) = Except.ok mn
        rw [hs]
        show (match min_fold col (r0 :: rest) none with
              | Except.error e => Except.error e
              | Except.ok none => Except.error unwrapNone
              | Except.ok (some m) => Except.ok m) = Except.ok mn
        rw [hfold, hmn]
      · show max_run [s] (r0 :: rest) = Except.ok mx
        show (match parseU64 s with
              | none => Except.error (Failure.fatal "No index specified.")
              | some col_index =>
                match max_fold col_index (r0 :: rest) none with
                | Except.error e => Except.error e
                | Except.ok none => Except.error unwrapNone
                | Except.ok (some m) => Except.ok m) = Except.ok mx
        rw [hs]
        show (match max_fold col (r0 :: rest) none with
              | Except.error e => Except.error e
              | Except.ok none => Except.error unwrapNone
              | Except.ok (some m) => Except.ok m) = Except.ok mx
        rw [hfoldx, hmx]

/-- Witness for C9 at a concrete input: over cell texts `b`, `10`, `2`, MIN
is `"10"` and MAX is `"b"` — text order, under which `"10" < "2"`. -/
theorem C9_min_max_lexicographic_witness :
    ∃ mn mx,
      aggregators_run "MIN" ["0"]
        [Row.mk [some "b"], Row.mk [some "10"], Row.mk [some "2"]] = Except.ok mn ∧
      aggregators_run "MAX" ["0"]
        [Row.mk [some "b"], Row.mk [some "10"], Row.mk [some "2"]] = Except.ok mx ∧
      mn ∈ ["b", "10", "2"] ∧ (∀ v ∈ ["b", "10", "2"], rustStrLt v mn = false) ∧
      mx ∈ ["b", "10", "2"] ∧ (∀ v ∈ ["b", "10", "2"], rustStrLt mx v = false) :=
  C9_min_max_lexicographic "0" 0
    [Row.mk [some "b"], Row.mk [some "10"], Row.mk [some "2"]]
    ["b", "10", "2"] rfl rfl (by decide)

end Ferrum
